import Mathlib

/-!
Verification of the order-placement workflow of the Book-Chatbot backend
(`src/backend/routes.py`, function `place_order`, together with the SQLite
schema of `src/backend/database.py`).

The relational state is embedded shallowly: each table is a list of rows,
`AUTOINCREMENT` on `orders.id` is an explicit counter, SQLite `REAL` prices
are rationals and `INTEGER` quantities/stocks are integers.  The body of
`place_order` runs inside one SQLite transaction with a single `conn.commit()`
at the end and `conn.rollback()` on every `sqlite3.Error`; the transaction is
embedded as a pure list of write steps that is folded into the state only at
commit time, and a storage fault injected before the commit discards the
buffered writes (SQLite rollback semantics).
-/

namespace BookOrder

/-- Row of the `products` table (`id` is the `INTEGER PRIMARY KEY`, so it is
unique across rows; `price REAL`, `stock INTEGER`).  Catalog columns not read
by the order workflow (`author`, `genre`, ...) are omitted. -/
structure Product where
  id : Nat
  title : String
  price : ℚ
  stock : Int
deriving Repr, DecidableEq

/-- Row of the `cart_items` table; the schema declares
`UNIQUE(user_id, product_id)`. -/
structure CartItem where
  user_id : Nat
  product_id : Nat
  quantity : Int
deriving Repr, DecidableEq

/-- Row of the `orders` table (`order_date` omitted; `id` is generated by
`AUTOINCREMENT`). -/
structure Order where
  id : Nat
  user_id : Nat
  total_amount : ℚ
  status : String
deriving Repr, DecidableEq

/-- Row of the `order_items` table. -/
structure OrderItem where
  order_id : Nat
  product_id : Nat
  quantity : Int
  price_at_purchase : ℚ
deriving Repr, DecidableEq

/-- Row of the `messages` table (chat log; never touched by `place_order`). -/
structure Message where
  user_id : Nat
  sender : String
  text : String
deriving Repr, DecidableEq

/-- The database state: the tables of `database.py` (`users` reduced to its
ids) plus the `AUTOINCREMENT` counter of `orders`. -/
structure DB where
  users : List Nat
  products : List Product
  cart_items : List CartItem
  orders : List Order
  order_items : List OrderItem
  messages : List Message
  next_order_id : Nat
deriving Repr, DecidableEq

/-- One row of the query
`SELECT ci.product_id, ci.quantity, p.price, p.stock FROM cart_items ci
JOIN products p ON ci.product_id = p.id WHERE ci.user_id = ?`. -/
structure JoinedRow where
  product_id : Nat
  quantity : Int
  price : ℚ
  stock : Int
deriving Repr, DecidableEq

/-- Lookup of a product row by primary key (`p.id` is unique, so the first
match is the row). -/
def productLookup (ps : List Product) (pid : Nat) : Option Product :=
  ps.find? (fun p => p.id == pid)

/-- The caller's rows of `cart_items` (`WHERE ci.user_id = ?`). -/
def userCart (db : DB) (uid : Nat) : List CartItem :=
  db.cart_items.filter (fun ci => ci.user_id == uid)

/-- Inner join of a list of cart rows against the product table: each cart
row pairs with the product row of its id; rows whose product id matches no
product produce nothing. -/
def joinRows (ps : List Product) (l : List CartItem) : List JoinedRow :=
  l.filterMap (fun ci =>
    (productLookup ps ci.product_id).map (fun p =>
      { product_id := ci.product_id, quantity := ci.quantity
        price := p.price, stock := p.stock }))

/-- The cart/catalog join read at the start of `place_order` (routes.py
lines 307-314). -/
def cartJoin (db : DB) (uid : Nat) : List JoinedRow :=
  joinRows db.products (userCart db uid)

/-- The first joined row, if any, with `item['quantity'] > item['stock']`
(the validation loop of routes.py lines 319-322 returns at the first such
row). -/
def findInsufficient (items : List JoinedRow) : Option JoinedRow :=
  items.find? (fun it => it.stock < it.quantity)

/-- `total_amount`, accumulated as `total_amount += item['quantity'] *
item['price']` from `0` over the joined rows (routes.py lines 304, 323). -/
def computeTotal (items : List JoinedRow) : ℚ :=
  items.foldl (fun acc it => acc + (it.quantity : ℚ) * it.price) 0

/-- The elementary SQL writes issued by `place_order` inside its
transaction. -/
inductive WriteStep where
  | insertOrder (uid : Nat) (total : ℚ)
  | insertOrderItem (oid : Nat) (pid : Nat) (q : Int) (price : ℚ)
  | updateStock (pid : Nat) (q : Int)
  | deleteCart (uid : Nat)
deriving Repr, DecidableEq

/-- Effect of one write step on the database state.
`INSERT INTO orders` uses the autoincrement counter; `UPDATE products SET
stock = stock - ? WHERE id = ?` rewrites every row with the given id;
`DELETE FROM cart_items WHERE user_id = ?` keeps the other users' rows. -/
def applyStep (db : DB) : WriteStep → DB
  | .insertOrder uid total =>
      { db with
        orders := db.orders ++ [{ id := db.next_order_id, user_id := uid
                                  total_amount := total, status := "pending" }]
        next_order_id := db.next_order_id + 1 }
  | .insertOrderItem oid pid q price =>
      { db with
        order_items := db.order_items ++ [{ order_id := oid, product_id := pid
                                            quantity := q, price_at_purchase := price }] }
  | .updateStock pid q =>
      { db with
        products := db.products.map (fun p =>
          if p.id == pid then { p with stock := p.stock - q } else p) }
  | .deleteCart uid =>
      { db with cart_items := db.cart_items.filter (fun ci => !(ci.user_id == uid)) }

/-- The per-line writes of routes.py lines 331-339: for each joined row, one
`INSERT INTO order_items` snapshotting quantity and price, then the stock
decrement. -/
def itemSteps (oid : Nat) : List JoinedRow → List WriteStep
  | [] => []
  | it :: rest =>
      .insertOrderItem oid it.product_id it.quantity it.price ::
      .updateStock it.product_id it.quantity ::
      itemSteps oid rest

/-- The full write sequence of a successful placement (routes.py lines
325-341): the order insert (whose generated id `cursor.lastrowid` is the
current counter value), the per-line writes, then the cart deletion. -/
def orderSteps (db : DB) (uid : Nat) (items : List JoinedRow) : List WriteStep :=
  .insertOrder uid (computeTotal items) ::
    (itemSteps db.next_order_id items ++ [.deleteCart uid])

/-- The response of `POST /orders`, tagged with the data each branch of
routes.py returns in its JSON body. -/
inductive Resp where
  | emptyCart
  | insufficientStock (product_id : Nat) (available : Int)
  | created (order_id : Nat) (total_amount : ℚ)
  | storageError
deriving Repr, DecidableEq

/-- HTTP status code of each response branch. -/
def Resp.code : Resp → Nat
  | .emptyCart => 400
  | .insufficientStock _ _ => 400
  | .created _ _ => 201
  | .storageError => 500

/-- `place_order` (routes.py lines 299-350).  `faultAfter = some n` injects a
`sqlite3.Error` after `n` of the buffered write steps have executed; the
`except` arm runs `conn.rollback()`, which discards every uncommitted write
(there is no intermediate `conn.commit()`), so the pre-call state is
returned together with the 500 response.  `faultAfter = none` (or a fault
point at or past the end of the write sequence) reaches `conn.commit()` and
the buffered writes are folded into the state. -/
def place_order (db : DB) (uid : Nat) (faultAfter : Option Nat) : DB × Resp :=
  let items := cartJoin db uid
  if items.isEmpty then
    (db, Resp.emptyCart)
  else
    match findInsufficient items with
    | some it => (db, Resp.insufficientStock it.product_id it.stock)
    | none =>
        let steps := orderSteps db uid items
        match faultAfter with
        | some n =>
            if n < steps.length then (db, Resp.storageError)
            else (steps.foldl applyStep db, Resp.created db.next_order_id (computeTotal items))
        | none => (steps.foldl applyStep db, Resp.created db.next_order_id (computeTotal items))

/-- The committed state of a successful placement. -/
def commitState (db : DB) (uid : Nat) : DB :=
  (orderSteps db uid (cartJoin db uid)).foldl applyStep db

/-- Stock decrements of a list of joined rows, applied in order. -/
def stocksAfter (ps : List Product) (items : List JoinedRow) : List Product :=
  items.foldl (fun ps it => ps.map (fun p =>
    if p.id == it.product_id then { p with stock := p.stock - it.quantity } else p)) ps

/-- True exactly on the `created` (HTTP 201) response. -/
def Resp.isCreated : Resp → Bool
  | .created _ _ => true
  | _ => false

/-- Serial schedule of one placement per user id, in order.  SQLite
serialises writing transactions on the single database file (a concurrent
writer either waits or fails with `SQLITE_BUSY`, a `sqlite3.Error`), so K
concurrent `place_order` calls commit as some serial sequence; `placeAll`
runs that sequence and counts the placements that succeeded. -/
def placeAll : List Nat → DB → DB × Nat
  | [], db => (db, 0)
  | u :: rest, db =>
      let r := place_order db u none
      let out := placeAll rest r.1
      (out.1, out.2 + (if r.2.isCreated then 1 else 0))

/-! ### Witness databases (concrete states used to instantiate the claims) -/

/-- Concrete state: two products in stock, user 1 holding a two-line cart and
user 2 a one-line cart (the scenario of spec section 8). -/
def dbA : DB :=
  { users := [1, 2]
    products := [{ id := 1, title := "A", price := 10, stock := 5 },
                 { id := 2, title := "B", price := 5, stock := 7 }]
    cart_items := [{ user_id := 1, product_id := 1, quantity := 3 },
                   { user_id := 1, product_id := 2, quantity := 2 },
                   { user_id := 2, product_id := 1, quantity := 1 }]
    orders := []
    order_items := []
    messages := [{ user_id := 1, sender := "user", text := "hi" }]
    next_order_id := 1 }

/-- Concrete state: user 1 requests 10 units of a product with stock 5
(the oversell scenario of spec section 8). -/
def dbB : DB :=
  { users := [1]
    products := [{ id := 1, title := "A", price := 10, stock := 5 }]
    cart_items := [{ user_id := 1, product_id := 1, quantity := 10 }]
    orders := []
    order_items := []
    messages := []
    next_order_id := 1 }

/-- Concrete state: three users, each with a one-line cart of two units of
the single product with stock 5. -/
def dbC : DB :=
  { users := [1, 2, 3]
    products := [{ id := 1, title := "A", price := 10, stock := 5 }]
    cart_items := [{ user_id := 1, product_id := 1, quantity := 2 },
                   { user_id := 2, product_id := 1, quantity := 2 },
                   { user_id := 3, product_id := 1, quantity := 2 }]
    orders := []
    order_items := []
    messages := []
    next_order_id := 1 }

/-- Concrete state: user 1 orders exactly the full stock of both products. -/
def dbD : DB :=
  { users := [1]
    products := [{ id := 1, title := "A", price := 10, stock := 5 },
                 { id := 2, title := "B", price := 5, stock := 2 }]
    cart_items := [{ user_id := 1, product_id := 1, quantity := 5 },
                   { user_id := 1, product_id := 2, quantity := 2 }]
    orders := []
    order_items := []
    messages := []
    next_order_id := 1 }

/-! ### Characterisation of the committed state -/

theorem foldl_itemSteps (oid : Nat) (items : List JoinedRow) (d : DB) :
    (itemSteps oid items).foldl applyStep d =
      { d with
        products := stocksAfter d.products items
        order_items := d.order_items ++ items.map (fun it =>
          { order_id := oid, product_id := it.product_id
            quantity := it.quantity, price_at_purchase := it.price }) } := by
  induction items generalizing d with
  | nil => simp [itemSteps, stocksAfter]
  | cons it rest ih =>
      simp only [itemSteps, List.foldl_cons, applyStep, ih, stocksAfter, List.map_cons,
        List.append_assoc, List.singleton_append, List.foldl_cons]

theorem commitState_eq (db : DB) (uid : Nat) :
    commitState db uid =
      { users := db.users
        products := stocksAfter db.products (cartJoin db uid)
        cart_items := db.cart_items.filter (fun ci => !(ci.user_id == uid))
        orders := db.orders ++ [{ id := db.next_order_id, user_id := uid
                                  total_amount := computeTotal (cartJoin db uid)
                                  status := "pending" }]
        order_items := db.order_items ++ (cartJoin db uid).map (fun it =>
          { order_id := db.next_order_id, product_id := it.product_id
            quantity := it.quantity, price_at_purchase := it.price })
        messages := db.messages
        next_order_id := db.next_order_id + 1 } := by
  unfold commitState orderSteps
  rw [List.foldl_cons, List.foldl_append, foldl_itemSteps]
  simp [applyStep, stocksAfter]

/-- Every run of `place_order` either leaves the state untouched and reports
one of the three error responses, or commits and reports `created`. -/
theorem place_order_cases (db : DB) (uid : Nat) (f : Option Nat) :
    (cartJoin db uid = [] ∧ place_order db uid f = (db, Resp.emptyCart)) ∨
    (∃ it, findInsufficient (cartJoin db uid) = some it ∧
      place_order db uid f = (db, Resp.insufficientStock it.product_id it.stock)) ∨
    (place_order db uid f = (db, Resp.storageError)) ∨
    (cartJoin db uid ≠ [] ∧ findInsufficient (cartJoin db uid) = none ∧
      place_order db uid f =
        (commitState db uid, Resp.created db.next_order_id (computeTotal (cartJoin db uid)))) := by
  unfold place_order
  rcases hempty : (cartJoin db uid).isEmpty with _ | _
  · rcases hfind : findInsufficient (cartJoin db uid) with _ | it
    · rcases f with _ | n
      · right; right; right
        refine ⟨by simpa [List.isEmpty_iff] using hempty, rfl, ?_⟩
        simp [hempty, hfind, commitState]
      · by_cases hn : n < (orderSteps db uid (cartJoin db uid)).length
        · right; right; left; simp [hempty, hfind, hn]
        · right; right; right
          refine ⟨by simpa [List.isEmpty_iff] using hempty, rfl, ?_⟩
          simp [hempty, hfind, hn, commitState]
    · right; left
      exact ⟨it, rfl, by simp [hempty, hfind]⟩
  · left
    refine ⟨by simpa [List.isEmpty_iff] using hempty, ?_⟩
    simp [hempty]

/-- Inversion: a `created` response pins down every branch condition, the
generated id, the total, and the committed state. -/
theorem place_order_created_inv (db : DB) (uid : Nat) (f : Option Nat)
    (db' : DB) (oid : Nat) (total : ℚ)
    (h : place_order db uid f = (db', Resp.created oid total)) :
    cartJoin db uid ≠ [] ∧ findInsufficient (cartJoin db uid) = none ∧
      oid = db.next_order_id ∧ total = computeTotal (cartJoin db uid) ∧
      db' = commitState db uid := by
  rcases place_order_cases db uid f with ⟨_, hcase⟩ | ⟨it, _, hcase⟩ | hcase |
    ⟨hne, hfind, hcase⟩ <;> rw [hcase] at h
  · exact absurd (congrArg Prod.snd h).symm (by simp)
  · exact absurd (congrArg Prod.snd h).symm (by simp)
  · exact absurd (congrArg Prod.snd h).symm (by simp)
  · have h2 := congrArg Prod.snd h
    simp only [Prod.snd, Resp.created.injEq] at h2
    exact ⟨hne, hfind, h2.1.symm, h2.2.symm, (congrArg Prod.fst h).symm⟩

/-- A response other than `created` leaves the database untouched. -/
theorem place_order_fail_frame (db : DB) (uid : Nat) (f : Option Nat)
    (db' : DB) (r : Resp) (h : place_order db uid f = (db', r))
    (hr : ∀ oid total, r ≠ Resp.created oid total) : db' = db := by
  rcases place_order_cases db uid f with ⟨_, hcase⟩ | ⟨it, _, hcase⟩ | hcase |
    ⟨_, _, hcase⟩ <;> rw [hcase] at h
  · exact (congrArg Prod.fst h).symm
  · exact (congrArg Prod.fst h).symm
  · exact (congrArg Prod.fst h).symm
  · exact absurd (congrArg Prod.snd h) (by simpa using (hr db.next_order_id
      (computeTotal (cartJoin db uid))).symm)

/-! ### Lookup and join lemmas -/

theorem productLookup_id {ps : List Product} {pid : Nat} {p : Product}
    (h : productLookup ps pid = some p) : p.id = pid := by
  have := List.find?_some h
  simpa using this

theorem productLookup_mem {ps : List Product} {pid : Nat} {p : Product}
    (h : productLookup ps pid = some p) : p ∈ ps :=
  List.mem_of_find?_eq_some h

theorem productLookup_of_mem {ps : List Product} (hids : (ps.map Product.id).Nodup)
    {p : Product} (hp : p ∈ ps) : productLookup ps p.id = some p := by
  induction ps with
  | nil => cases hp
  | cons q ps ih =>
      rcases List.mem_cons.mp hp with rfl | hp'
      · simp [productLookup]
      · have hne : ¬ (q.id == p.id) = true := by
          simp only [List.map_cons, List.nodup_cons] at hids
          intro hq
          exact hids.1 (by
            simp only [beq_iff_eq] at hq
            exact hq ▸ List.mem_map.mpr ⟨p, hp', rfl⟩)
        simp only [productLookup, List.find?_cons, hne]
        exact ih (by simpa using (List.nodup_cons.mp (by simpa using hids)).2) hp'

theorem joinRows_mem {ps : List Product} {l : List CartItem} {it : JoinedRow}
    (h : it ∈ joinRows ps l) :
    ∃ ci ∈ l, ∃ p, productLookup ps ci.product_id = some p ∧
      it = { product_id := ci.product_id, quantity := ci.quantity
             price := p.price, stock := p.stock } := by
  simp only [joinRows, List.mem_filterMap] at h
  obtain ⟨ci, hci, hmap⟩ := h
  rw [Option.map_eq_some'] at hmap
  obtain ⟨p, hp, heq⟩ := hmap
  exact ⟨ci, hci, p, hp, heq.symm⟩

theorem joinRows_of_mem {ps : List Product} {l : List CartItem} {ci : CartItem}
    (hci : ci ∈ l) {p : Product} (hp : productLookup ps ci.product_id = some p) :
    ({ product_id := ci.product_id, quantity := ci.quantity
       price := p.price, stock := p.stock } : JoinedRow) ∈ joinRows ps l := by
  simp only [joinRows, List.mem_filterMap]
  exact ⟨ci, hci, by rw [hp]; rfl⟩

theorem cartJoin_lookup {db : DB} {uid : Nat} :
    ∀ it ∈ cartJoin db uid, ∃ p, productLookup db.products it.product_id = some p ∧
      p.id = it.product_id ∧ p.price = it.price ∧ p.stock = it.stock := by
  intro it hit
  obtain ⟨ci, _, p, hp, rfl⟩ := joinRows_mem hit
  exact ⟨p, hp, productLookup_id hp, rfl, rfl⟩

theorem joinRows_pid_mem {ps : List Product} {l : List CartItem} {x : Nat}
    (h : x ∈ (joinRows ps l).map JoinedRow.product_id) :
    x ∈ l.map CartItem.product_id := by
  obtain ⟨it, hit, rfl⟩ := List.mem_map.mp h
  obtain ⟨ci, hci, p, _, rfl⟩ := joinRows_mem hit
  exact List.mem_map.mpr ⟨ci, hci, rfl⟩

theorem joinRows_nodup {ps : List Product} {l : List CartItem}
    (h : (l.map CartItem.product_id).Nodup) :
    ((joinRows ps l).map JoinedRow.product_id).Nodup := by
  induction l with
  | nil => simp [joinRows]
  | cons ci l ih =>
      simp only [List.map_cons, List.nodup_cons] at h
      rcases hlk : productLookup ps ci.product_id with _ | p
      · simpa [joinRows, List.filterMap_cons, hlk] using ih h.2
      · have hcons : joinRows ps (ci :: l) =
            ({ product_id := ci.product_id, quantity := ci.quantity
               price := p.price, stock := p.stock } : JoinedRow) :: joinRows ps l := by
          simp [joinRows, List.filterMap_cons, hlk]
        rw [hcons, List.map_cons]
        exact List.nodup_cons.mpr ⟨fun hx => h.1 (joinRows_pid_mem hx), ih h.2⟩

/-! ### Stock-update lemmas -/

theorem stocksAfter_nil (ps : List Product) : stocksAfter ps [] = ps := rfl

theorem stocksAfter_cons (ps : List Product) (it : JoinedRow) (items : List JoinedRow) :
    stocksAfter ps (it :: items) =
      stocksAfter (ps.map (fun p =>
        if p.id == it.product_id then { p with stock := p.stock - it.quantity } else p)) items :=
  rfl

theorem lookup_decOne (ps : List Product) (pid0 : Nat) (q : Int) (pid : Nat) :
    productLookup (ps.map (fun p =>
        if p.id == pid0 then { p with stock := p.stock - q } else p)) pid
      = (productLookup ps pid).map (fun p =>
          if p.id == pid0 then { p with stock := p.stock - q } else p) := by
  induction ps with
  | nil => rfl
  | cons p ps ih =>
      have hid : (if p.id == pid0 then { p with stock := p.stock - q } else p).id = p.id := by
        split <;> rfl
      by_cases hpid : (p.id == pid) = true
      · simp only [productLookup, List.map_cons, List.find?_cons, hid, hpid]
        rfl
      · simp only [productLookup, List.map_cons, List.find?_cons, hid,
          Bool.not_eq_true] at *
        rw [hpid]
        exact ih

theorem decOne_map_id (ps : List Product) (pid0 : Nat) (q : Int) :
    (ps.map (fun p =>
      if p.id == pid0 then { p with stock := p.stock - q } else p)).map Product.id
    = ps.map Product.id := by
  rw [List.map_map]
  exact List.map_congr_left (fun p _ => by simp only [Function.comp]; split <;> rfl)

theorem stocksAfter_map_id (items : List JoinedRow) :
    ∀ ps : List Product, (stocksAfter ps items).map Product.id = ps.map Product.id := by
  induction items with
  | nil => intro ps; rfl
  | cons it items ih =>
      intro ps
      rw [stocksAfter_cons, ih, decOne_map_id]

theorem decOne_map_id_price (ps : List Product) (pid0 : Nat) (q : Int) :
    (ps.map (fun p =>
      if p.id == pid0 then { p with stock := p.stock - q } else p)).map
        (fun p => (p.id, p.price))
    = ps.map (fun p => (p.id, p.price)) := by
  rw [List.map_map]
  exact List.map_congr_left (fun p _ => by simp only [Function.comp]; split <;> rfl)

theorem stocksAfter_map_id_price (items : List JoinedRow) :
    ∀ ps : List Product, (stocksAfter ps items).map (fun p => (p.id, p.price))
      = ps.map (fun p => (p.id, p.price)) := by
  induction items with
  | nil => intro ps; rfl
  | cons it items ih =>
      intro ps
      rw [stocksAfter_cons, ih, decOne_map_id_price]

theorem stocksAfter_lookup_notmem (items : List JoinedRow) :
    ∀ (ps : List Product) (pid : Nat), (∀ it ∈ items, it.product_id ≠ pid) →
      productLookup (stocksAfter ps items) pid = productLookup ps pid := by
  induction items with
  | nil => intro ps pid _; rfl
  | cons it items ih =>
      intro ps pid hne
      rw [stocksAfter_cons, ih _ _ (fun it' h => hne it' (List.mem_cons_of_mem _ h)),
        lookup_decOne]
      rcases hlk : productLookup ps pid with _ | p
      · rfl
      · have hc : ¬ (p.id == it.product_id) = true := by
          simp only [beq_iff_eq, productLookup_id hlk]
          exact fun h => hne it (List.mem_cons_self _ _) h.symm
        simp only [Option.map_some']
        rw [if_neg hc]

theorem stocksAfter_lookup_mem (items : List JoinedRow)
    (hnd : (items.map JoinedRow.product_id).Nodup) :
    ∀ (ps : List Product), ∀ it ∈ items, ∀ p, productLookup ps it.product_id = some p →
      productLookup (stocksAfter ps items) it.product_id =
        some { p with stock := p.stock - it.quantity } := by
  induction items with
  | nil => intro ps it hit; cases hit
  | cons it0 items ih =>
      intro ps it hit p hp
      simp only [List.map_cons, List.nodup_cons] at hnd
      rcases List.mem_cons.mp hit with rfl | hit'
      · rw [stocksAfter_cons,
          stocksAfter_lookup_notmem _ _ _ (fun it' h' heq =>
            hnd.1 (List.mem_map.mpr ⟨it', h', heq⟩)),
          lookup_decOne, hp]
        simp [productLookup_id hp]
      · have hne : it.product_id ≠ it0.product_id := by
          intro heq
          exact hnd.1 (heq ▸ List.mem_map.mpr ⟨it, hit', rfl⟩)
        rw [stocksAfter_cons]
        refine ih hnd.2 _ it hit' p ?_
        rw [lookup_decOne, hp]
        simp [productLookup_id hp, hne]

theorem stocksAfter_nonneg (items : List JoinedRow) :
    ∀ ps : List Product, (ps.map Product.id).Nodup →
      (items.map JoinedRow.product_id).Nodup →
      (∀ p ∈ ps, 0 ≤ p.stock) →
      (∀ it ∈ items, ∀ p, productLookup ps it.product_id = some p → it.quantity ≤ p.stock) →
      ∀ p ∈ stocksAfter ps items, 0 ≤ p.stock := by
  induction items with
  | nil => intro ps _ _ hnn _; exact hnn
  | cons it0 items ih =>
      intro ps hids hnd hnn hok
      simp only [List.map_cons, List.nodup_cons] at hnd
      rw [stocksAfter_cons]
      refine ih _ (by rw [decOne_map_id]; exact hids) hnd.2 ?_ ?_
      · intro p1 hp1
        obtain ⟨p0, hp0, rfl⟩ := List.mem_map.mp hp1
        by_cases hid : (p0.id == it0.product_id) = true
        · have hlk : productLookup ps it0.product_id = some p0 := by
            have hthis := productLookup_of_mem hids hp0
            rwa [beq_iff_eq.mp hid] at hthis
          have hb := hok it0 (List.mem_cons_self _ _) p0 hlk
          simp only [hid, if_pos]
          omega
        · simpa [hid] using hnn p0 hp0
      · intro it hit p1 hp1
        have hne : it.product_id ≠ it0.product_id := by
          intro heq
          exact hnd.1 (List.mem_map.mpr ⟨it, hit, heq⟩)
        rw [lookup_decOne] at hp1
        rcases hlk : productLookup ps it.product_id with _ | p
        · rw [hlk] at hp1; cases hp1
        · rw [hlk] at hp1
          have hpid : ¬ (p.id == it0.product_id) = true := by
            simp only [beq_iff_eq, productLookup_id hlk]
            exact hne
          rw [Option.map_some', if_neg hpid] at hp1
          obtain rfl := Option.some_inj.mp hp1
          exact hok it (List.mem_cons_of_mem _ hit) p hlk

/-! ### Totals -/

theorem computeTotal_foldl (items : List JoinedRow) : ∀ init : ℚ,
    items.foldl (fun acc it => acc + (it.quantity : ℚ) * it.price) init
      = init + (items.map (fun it => (it.quantity : ℚ) * it.price)).sum := by
  induction items with
  | nil => intro init; simp
  | cons it rest ih =>
      intro init
      rw [List.foldl_cons, ih, List.map_cons, List.sum_cons]
      ring

theorem computeTotal_eq_sum (items : List JoinedRow) :
    computeTotal items = (items.map (fun it => (it.quantity : ℚ) * it.price)).sum := by
  rw [computeTotal, computeTotal_foldl]
  ring

/-! ### Claim theorems -/

/-- C6: for every userId whose joined cart-entry set is empty, `place_order`
fails with the empty-cart error (HTTP 400) and performs zero writes: the
database is returned unchanged. -/
theorem empty_cart_rejects (db : DB) (uid : Nat) (f : Option Nat)
    (h : cartJoin db uid = []) :
    place_order db uid f = (db, Resp.emptyCart) ∧
      (place_order db uid f).2.code = 400 := by
  have hmain : place_order db uid f = (db, Resp.emptyCart) := by
    simp [place_order, h]
  exact ⟨hmain, by rw [hmain]; rfl⟩

theorem empty_cart_rejects_witness :
    place_order dbA 3 none = (dbA, Resp.emptyCart) ∧
      (place_order dbA 3 none).2.code = 400 :=
  empty_cart_rejects dbA 3 none (by decide)

/-- C10: `place_order` never consults the `users` table: for every identifier
with no cart rows — the statement has no hypothesis about `db.users` at all,
so it covers identifiers present in no users row — the call returns the
empty-cart error (HTTP 400), not any user-not-found error, and mutates
nothing. -/
theorem no_user_existence_check (db : DB) (uid : Nat) (f : Option Nat)
    (h : db.cart_items.filter (fun ci => ci.user_id == uid) = []) :
    place_order db uid f = (db, Resp.emptyCart) ∧
      (place_order db uid f).2.code = 400 := by
  have hjoin : cartJoin db uid = [] := by
    rw [cartJoin, userCart, h]
    rfl
  have hmain : place_order db uid f = (db, Resp.emptyCart) := by
    simp [place_order, hjoin]
  exact ⟨hmain, by rw [hmain]; rfl⟩

theorem no_user_existence_check_witness :
    (7 ∉ dbA.users) ∧
      (place_order dbA 7 none = (dbA, Resp.emptyCart) ∧
        (place_order dbA 7 none).2.code = 400) :=
  ⟨by decide, no_user_existence_check dbA 7 none (by decide)⟩

/-- C3: when the storage raises a failure after the stock check and before
the commit (fault injected at any point of the buffered write sequence), the
whole unit of work is rolled back: the post-state of the products, orders,
order_items and cart_items tables is identical to the pre-call state and the
caller receives the storage error (HTTP 500). -/
theorem storage_fault_rolls_back (db : DB) (uid : Nat) (n : Nat)
    (hne : cartJoin db uid ≠ [])
    (hok : findInsufficient (cartJoin db uid) = none)
    (hn : n < (orderSteps db uid (cartJoin db uid)).length) :
    place_order db uid (some n) = (db, Resp.storageError) ∧
      (place_order db uid (some n)).1.products = db.products ∧
      (place_order db uid (some n)).1.orders = db.orders ∧
      (place_order db uid (some n)).1.order_items = db.order_items ∧
      (place_order db uid (some n)).1.cart_items = db.cart_items ∧
      (place_order db uid (some n)).2.code = 500 := by
  have hmain : place_order db uid (some n) = (db, Resp.storageError) := by
    simp [place_order, hok, hn, List.isEmpty_iff, hne]
  refine ⟨hmain, ?_, ?_, ?_, ?_, ?_⟩ <;> (rw [hmain]; try rfl)

theorem storage_fault_rolls_back_witness :
    place_order dbA 1 (some 2) = (dbA, Resp.storageError) ∧
      (place_order dbA 1 (some 2)).1.products = dbA.products ∧
      (place_order dbA 1 (some 2)).1.orders = dbA.orders ∧
      (place_order dbA 1 (some 2)).1.order_items = dbA.order_items ∧
      (place_order dbA 1 (some 2)).1.cart_items = dbA.cart_items ∧
      (place_order dbA 1 (some 2)).2.code = 500 :=
  storage_fault_rolls_back dbA 1 2 (by decide) (by decide) (by decide)

/-- C5: whenever some joined cart line requests more than its product's
current stock, `place_order` fails with the insufficient-stock error
(HTTP 400) naming an offending product and that product's current stock, and
the database is returned unchanged. -/
theorem insufficient_stock_rejects (db : DB) (uid : Nat)
    (h : ∃ it ∈ cartJoin db uid, it.stock < it.quantity) :
    ∃ it₀ ∈ cartJoin db uid, it₀.stock < it₀.quantity ∧
      (∃ p, productLookup db.products it₀.product_id = some p ∧ p.stock = it₀.stock) ∧
      place_order db uid none = (db, Resp.insufficientStock it₀.product_id it₀.stock) ∧
      (place_order db uid none).2.code = 400 := by
  obtain ⟨it, hit, hlt⟩ := h
  rcases hfind : findInsufficient (cartJoin db uid) with _ | it₀
  · exfalso
    rw [findInsufficient, List.find?_eq_none] at hfind
    exact hfind it hit (by simpa using hlt)
  · have hmem : it₀ ∈ cartJoin db uid := List.mem_of_find?_eq_some hfind
    have hlt₀ : it₀.stock < it₀.quantity := by
      have := List.find?_some hfind
      simpa using this
    have hne : cartJoin db uid ≠ [] := fun hempty => by
      rw [hempty] at hit; cases hit
    obtain ⟨p, hp, _, _, hstock⟩ := cartJoin_lookup it₀ hmem
    have hmain : place_order db uid none =
        (db, Resp.insufficientStock it₀.product_id it₀.stock) := by
      simp [place_order, hfind, List.isEmpty_iff, hne]
    exact ⟨it₀, hmem, hlt₀, ⟨p, hp, hstock⟩, hmain, by rw [hmain]; rfl⟩

theorem insufficient_stock_rejects_witness :
    ∃ it₀ ∈ cartJoin dbB 1, it₀.stock < it₀.quantity ∧
      (∃ p, productLookup dbB.products it₀.product_id = some p ∧ p.stock = it₀.stock) ∧
      place_order dbB 1 none = (dbB, Resp.insufficientStock it₀.product_id it₀.stock) ∧
      (place_order dbB 1 none).2.code = 400 :=
  insufficient_stock_rejects dbB 1
    ⟨{ product_id := 1, quantity := 10, price := 10, stock := 5 }, by decide, by decide⟩

/-! ### Success-path helpers -/

theorem place_order_success (db : DB) (uid : Nat) (hne : cartJoin db uid ≠ [])
    (hfind : findInsufficient (cartJoin db uid) = none) :
    place_order db uid none =
      (commitState db uid, Resp.created db.next_order_id (computeTotal (cartJoin db uid))) := by
  simp [place_order, hfind, List.isEmpty_iff, hne, commitState]

theorem filter_user_self (l : List CartItem) (uid : Nat) :
    (l.filter (fun ci => !(ci.user_id == uid))).filter (fun ci => ci.user_id == uid) = [] := by
  induction l with
  | nil => rfl
  | cons ci l ih =>
      by_cases h : (ci.user_id == uid) = true
      · simp [h, ih]
      · simp [h, ih]

theorem filter_user_other (l : List CartItem) (uid u' : Nat) (hne : u' ≠ uid) :
    (l.filter (fun ci => !(ci.user_id == uid))).filter (fun ci => ci.user_id == u')
      = l.filter (fun ci => ci.user_id == u') := by
  induction l with
  | nil => rfl
  | cons ci l ih =>
      by_cases h' : (ci.user_id == u') = true
      · have h : ¬ (ci.user_id == uid) = true := by
          simp only [beq_iff_eq] at h' ⊢
          exact fun hu => hne (h' ▸ hu ▸ rfl)
        simp [h, h', ih]
      · by_cases h : (ci.user_id == uid) = true
        · simp [h, h', ih]
        · simp [h, h', ih]

/-- C7: a successful `place_order` leaves the caller's cart completely empty,
and a `place_order` that fails for any reason (empty cart, insufficient
stock, or storage error) leaves the cart table exactly as it was before the
call. -/
theorem cart_cleared_iff_success (db : DB) (uid : Nat) (f : Option Nat)
    (db' : DB) (r : Resp) (h : place_order db uid f = (db', r)) :
    ((∃ oid total, r = Resp.created oid total) →
      db'.cart_items.filter (fun ci => ci.user_id == uid) = []) ∧
    ((∀ oid total, r ≠ Resp.created oid total) → db'.cart_items = db.cart_items) := by
  constructor
  · rintro ⟨oid, total, rfl⟩
    obtain ⟨_, _, _, _, rfl⟩ := place_order_created_inv db uid f db' oid total h
    rw [commitState_eq]
    exact filter_user_self db.cart_items uid
  · intro hr
    rw [place_order_fail_frame db uid f db' r h hr]

theorem cart_cleared_iff_success_witness :
    ((∃ oid total, (place_order dbA 1 none).2 = Resp.created oid total) →
      (place_order dbA 1 none).1.cart_items.filter (fun ci => ci.user_id == 1) = []) ∧
    ((∀ oid total, (place_order dbA 1 none).2 ≠ Resp.created oid total) →
      (place_order dbA 1 none).1.cart_items = dbA.cart_items) :=
  cart_cleared_iff_success dbA 1 none (place_order dbA 1 none).1
    (place_order dbA 1 none).2 rfl

/-- C4: on every successful placement the returned total equals the sum over
the joined cart lines of quantity times the price captured in the single
cart-and-catalog read, the persisted order row carries that same total, each
created line item snapshots that same captured price as
`price_at_purchase`, and the response is HTTP 201 with the generated order
id and the total. -/
theorem total_amount_correct (db : DB) (uid : Nat) (db' : DB) (oid : Nat) (total : ℚ)
    (h : place_order db uid none = (db', Resp.created oid total)) :
    total = ((cartJoin db uid).map (fun it => (it.quantity : ℚ) * it.price)).sum ∧
    db'.orders = db.orders ++ [{ id := oid, user_id := uid
                                 total_amount := total, status := "pending" }] ∧
    db'.order_items = db.order_items ++ (cartJoin db uid).map (fun it =>
      { order_id := oid, product_id := it.product_id
        quantity := it.quantity, price_at_purchase := it.price }) ∧
    (∀ it ∈ cartJoin db uid,
      ({ order_id := oid, product_id := it.product_id, quantity := it.quantity
         price_at_purchase := it.price } : OrderItem) ∈ db'.order_items) ∧
    oid = db.next_order_id ∧
    (place_order db uid none).2.code = 201 := by
  obtain ⟨_, _, hoid, htotal, rfl⟩ := place_order_created_inv db uid none _ oid total h
  subst hoid htotal
  rw [commitState_eq]
  refine ⟨computeTotal_eq_sum _, rfl, rfl, ?_, rfl, by rw [h]; rfl⟩
  intro it hit
  exact List.mem_append_right _ (List.mem_map.mpr ⟨it, hit, rfl⟩)

theorem total_amount_correct_witness :
    computeTotal (cartJoin dbA 1) =
      ((cartJoin dbA 1).map (fun it => (it.quantity : ℚ) * it.price)).sum ∧
    (place_order dbA 1 none).1.orders = dbA.orders ++
      [{ id := dbA.next_order_id, user_id := 1
         total_amount := computeTotal (cartJoin dbA 1), status := "pending" }] ∧
    (place_order dbA 1 none).1.order_items = dbA.order_items ++ (cartJoin dbA 1).map (fun it =>
      { order_id := dbA.next_order_id, product_id := it.product_id
        quantity := it.quantity, price_at_purchase := it.price }) ∧
    (∀ it ∈ cartJoin dbA 1,
      ({ order_id := dbA.next_order_id, product_id := it.product_id, quantity := it.quantity
         price_at_purchase := it.price } : OrderItem) ∈ (place_order dbA 1 none).1.order_items) ∧
    dbA.next_order_id = dbA.next_order_id ∧
    (place_order dbA 1 none).2.code = 201 :=
  total_amount_correct dbA 1 (place_order dbA 1 none).1 dbA.next_order_id
    (computeTotal (cartJoin dbA 1)) rfl

/-- C8: the side effects of a successful placement by user U are exactly one
new pending order row for U with the generated id, one line item per joined
cart line attached to that order, the stock decrements of exactly the
products of U's cart, and the deletion of U's cart rows; users, messages,
other users' cart rows, pre-existing orders and order items, every product's
price, and the stock of every product outside U's cart are unchanged. -/
theorem success_side_effects_exact (db : DB) (uid : Nat) (f : Option Nat)
    (db' : DB) (oid : Nat) (total : ℚ)
    (h : place_order db uid f = (db', Resp.created oid total)) :
    db'.users = db.users ∧
    db'.messages = db.messages ∧
    oid = db.next_order_id ∧
    db'.orders = db.orders ++ [{ id := oid, user_id := uid
                                 total_amount := total, status := "pending" }] ∧
    db'.order_items = db.order_items ++ (cartJoin db uid).map (fun it =>
      { order_id := oid, product_id := it.product_id
        quantity := it.quantity, price_at_purchase := it.price }) ∧
    db'.cart_items = db.cart_items.filter (fun ci => !(ci.user_id == uid)) ∧
    (∀ u', u' ≠ uid → userCart db' u' = userCart db u') ∧
    db'.products.map (fun p => (p.id, p.price)) = db.products.map (fun p => (p.id, p.price)) ∧
    (∀ pid, pid ∉ (cartJoin db uid).map JoinedRow.product_id →
      productLookup db'.products pid = productLookup db.products pid) ∧
    db'.products = stocksAfter db.products (cartJoin db uid) := by
  obtain ⟨_, _, hoid, htotal, rfl⟩ := place_order_created_inv db uid f _ oid total h
  subst hoid htotal
  rw [commitState_eq]
  refine ⟨rfl, rfl, rfl, rfl, rfl, rfl, ?_, stocksAfter_map_id_price _ _, ?_, rfl⟩
  · intro u' hu'
    exact filter_user_other db.cart_items uid u' hu'
  · intro pid hpid
    exact stocksAfter_lookup_notmem _ _ _ (fun it hit heq =>
      hpid (List.mem_map.mpr ⟨it, hit, heq⟩))

theorem success_side_effects_exact_witness :
    (place_order dbA 1 none).1.users = dbA.users ∧
    (place_order dbA 1 none).1.messages = dbA.messages ∧
    dbA.next_order_id = dbA.next_order_id ∧
    (place_order dbA 1 none).1.orders = dbA.orders ++
      [{ id := dbA.next_order_id, user_id := 1
         total_amount := computeTotal (cartJoin dbA 1), status := "pending" }] ∧
    (place_order dbA 1 none).1.order_items = dbA.order_items ++ (cartJoin dbA 1).map (fun it =>
      { order_id := dbA.next_order_id, product_id := it.product_id
        quantity := it.quantity, price_at_purchase := it.price }) ∧
    (place_order dbA 1 none).1.cart_items =
      dbA.cart_items.filter (fun ci => !(ci.user_id == 1)) ∧
    (∀ u', u' ≠ 1 → userCart (place_order dbA 1 none).1 u' = userCart dbA u') ∧
    (place_order dbA 1 none).1.products.map (fun p => (p.id, p.price)) =
      dbA.products.map (fun p => (p.id, p.price)) ∧
    (∀ pid, pid ∉ (cartJoin dbA 1).map JoinedRow.product_id →
      productLookup (place_order dbA 1 none).1.products pid =
        productLookup dbA.products pid) ∧
    (place_order dbA 1 none).1.products = stocksAfter dbA.products (cartJoin dbA 1) :=
  success_side_effects_exact dbA 1 none (place_order dbA 1 none).1 dbA.next_order_id
    (computeTotal (cartJoin dbA 1)) rfl

/-- C2: from any state whose stocks are all non-negative and whose schema
constraints hold (unique product ids, unique product per user cart line),
one `place_order` call — succeeding or failing, with or without a storage
fault — leaves every stock non-negative, and a successful call decrements
each ordered product's stock by exactly the quantity of the caller's cart
line for it. -/
theorem stock_stays_nonneg (db : DB) (uid : Nat) (f : Option Nat)
    (hids : (db.products.map Product.id).Nodup)
    (hcart : ((userCart db uid).map CartItem.product_id).Nodup)
    (hnn : ∀ p ∈ db.products, 0 ≤ p.stock) :
    (∀ p ∈ (place_order db uid f).1.products, 0 ≤ p.stock) ∧
    (∀ db' oid total, place_order db uid f = (db', Resp.created oid total) →
      ∀ ci ∈ db.cart_items, ci.user_id = uid →
        ∀ p, productLookup db.products ci.product_id = some p →
          productLookup db'.products ci.product_id =
            some { p with stock := p.stock - ci.quantity }) := by
  have hjoinnd : ((cartJoin db uid).map JoinedRow.product_id).Nodup :=
    joinRows_nodup hcart
  have hok : findInsufficient (cartJoin db uid) = none →
      ∀ it ∈ cartJoin db uid, ∀ p, productLookup db.products it.product_id = some p →
        it.quantity ≤ p.stock := by
    intro hfind it hit p hp
    rw [findInsufficient, List.find?_eq_none] at hfind
    obtain ⟨p₀, hp₀, _, _, hstock⟩ := cartJoin_lookup it hit
    rw [hp₀] at hp
    obtain rfl := Option.some_inj.mp hp
    have := hfind it hit
    simp only [decide_eq_true_eq] at this
    omega
  constructor
  · rcases place_order_cases db uid f with ⟨_, hc⟩ | ⟨it, _, hc⟩ | hc |
      ⟨_, hfind, hc⟩ <;> rw [hc]
    · exact hnn
    · exact hnn
    · exact hnn
    · rw [commitState_eq]
      exact stocksAfter_nonneg (cartJoin db uid) db.products hids hjoinnd hnn (hok hfind)
  · intro db' oid total h ci hci hciu p hp
    obtain ⟨_, hfind, _, _, rfl⟩ := place_order_created_inv db uid f db' oid total h
    have hmemcart : ci ∈ userCart db uid := by
      rw [userCart, List.mem_filter]
      exact ⟨hci, by simp [hciu]⟩
    have hmem : ({ product_id := ci.product_id, quantity := ci.quantity
                   price := p.price, stock := p.stock } : JoinedRow) ∈ cartJoin db uid :=
      joinRows_of_mem hmemcart hp
    rw [commitState_eq]
    exact stocksAfter_lookup_mem (cartJoin db uid) hjoinnd db.products _ hmem p hp

theorem stock_stays_nonneg_witness :
    (∀ p ∈ (place_order dbA 1 none).1.products, 0 ≤ p.stock) ∧
    (∀ db' oid total, place_order dbA 1 none = (db', Resp.created oid total) →
      ∀ ci ∈ dbA.cart_items, ci.user_id = 1 →
        ∀ p, productLookup dbA.products ci.product_id = some p →
          productLookup db'.products ci.product_id =
            some { p with stock := p.stock - ci.quantity }) :=
  stock_stays_nonneg dbA 1 none (by decide) (by decide) (by decide)

/-- C9: the stock check is strict, so a cart line requesting exactly the
available stock passes: whenever every joined line has quantity at most its
product's stock (and the cart is non-empty), the placement succeeds, and a
product ordered at exactly its full stock ends with stock exactly zero. -/
theorem exact_stock_accepted (db : DB) (uid : Nat)
    (hne : cartJoin db uid ≠ [])
    (hle : ∀ it ∈ cartJoin db uid, it.quantity ≤ it.stock)
    (hcart : ((userCart db uid).map CartItem.product_id).Nodup) :
    ∃ db' oid total, place_order db uid none = (db', Resp.created oid total) ∧
      ∀ it ∈ cartJoin db uid, it.quantity = it.stock →
        ∃ p', productLookup db'.products it.product_id = some p' ∧ p'.stock = 0 := by
  have hfind : findInsufficient (cartJoin db uid) = none := by
    rw [findInsufficient, List.find?_eq_none]
    intro it hit
    have := hle it hit
    simp only [decide_eq_true_eq]
    omega
  refine ⟨commitState db uid, db.next_order_id, computeTotal (cartJoin db uid),
    place_order_success db uid hne hfind, ?_⟩
  intro it hit heq
  obtain ⟨p, hp, _, _, hstock⟩ := cartJoin_lookup it hit
  refine ⟨{ p with stock := p.stock - it.quantity }, ?_, by rw [hstock, heq]; ring⟩
  rw [commitState_eq]
  exact stocksAfter_lookup_mem (cartJoin db uid) (joinRows_nodup hcart) db.products it hit p hp

theorem exact_stock_accepted_witness :
    ∃ db' oid total, place_order dbD 1 none = (db', Resp.created oid total) ∧
      ∀ it ∈ cartJoin dbD 1, it.quantity = it.stock →
        ∃ p', productLookup db'.products it.product_id = some p' ∧ p'.stock = 0 :=
  exact_stock_accepted dbD 1 (by decide) (by decide) (by decide)

/-! ### Serial schedule of concurrent placements -/

theorem placeAll_no_oversell (pid : Nat) (Q : Int) (uids : List Nat) :
    ∀ (db : DB) (S : Int), 0 ≤ S → uids.Nodup →
      (db.products.map Product.id).Nodup →
      (∃ p, productLookup db.products pid = some p ∧ p.stock = S) →
      (∀ u ∈ uids, userCart db u =
        [{ user_id := u, product_id := pid, quantity := Q }]) →
      ∀ db' n, placeAll uids db = (db', n) →
        (n : Int) * Q ≤ S ∧
        ∃ p', productLookup db'.products pid = some p' ∧ p'.stock = S - n * Q := by
  induction uids with
  | nil =>
      intro db S hS _ _ hp _ db' n h
      obtain ⟨p, hpl, hpS⟩ := hp
      simp only [placeAll, Prod.mk.injEq] at h
      obtain ⟨rfl, rfl⟩ := h
      exact ⟨by simpa using hS, p, hpl, by rw [hpS]; ring⟩
  | cons u rest ih =>
      intro db S hS hnd hids hp hcarts db' n h
      obtain ⟨p, hpl, hpS⟩ := hp
      have hcartu : userCart db u =
          [{ user_id := u, product_id := pid, quantity := Q }] :=
        hcarts u (List.mem_cons_self _ _)
      have hjoin : cartJoin db u =
          [{ product_id := pid, quantity := Q, price := p.price, stock := S }] := by
        rw [cartJoin, hcartu]
        simp [joinRows, List.filterMap_cons, hpl, hpS]
      have hndtail := (List.nodup_cons.mp hnd).2
      by_cases hQS : Q ≤ S
      · -- this placement succeeds
        have hfind : findInsufficient (cartJoin db u) = none := by
          rw [hjoin, findInsufficient]
          rw [List.find?_cons_of_neg _ (by simp only [decide_eq_true_eq]; omega)]
          rfl
        have hplace := place_order_success db u (by rw [hjoin]; simp) hfind
        rcases hout : placeAll rest (commitState db u) with ⟨db₁, n₁⟩
        have hstep : placeAll (u :: rest) db = (db₁, n₁ + 1) := by
          simp [placeAll, hplace, hout, Resp.isCreated]
        rw [hstep, Prod.mk.injEq] at h
        obtain ⟨rfl, rfl⟩ := h
        have hprod : (commitState db u).products =
            stocksAfter db.products (cartJoin db u) := by rw [commitState_eq]
        have hplook : productLookup (commitState db u).products pid =
            some { p with stock := S - Q } := by
          rw [hprod, hjoin, stocksAfter_cons, stocksAfter_nil, lookup_decOne, hpl]
          simp [beq_iff_eq, productLookup_id hpl, hpS]
        have hids1 : ((commitState db u).products.map Product.id).Nodup := by
          rw [hprod, stocksAfter_map_id]; exact hids
        have hcart1 : ∀ u' ∈ rest, userCart (commitState db u) u' =
            [{ user_id := u', product_id := pid, quantity := Q }] := by
          intro u' hu'
          have hne' : u' ≠ u := fun heq => (List.nodup_cons.mp hnd).1 (heq ▸ hu')
          have hcc : (commitState db u).cart_items =
              db.cart_items.filter (fun ci => !(ci.user_id == u)) := by
            rw [commitState_eq]
          rw [userCart, hcc, filter_user_other _ _ _ hne']
          exact hcarts u' (List.mem_cons_of_mem _ hu')
        obtain ⟨hb, p'', hp'', hs''⟩ := ih (commitState db u) (S - Q) (by omega)
          hndtail hids1 ⟨{ p with stock := S - Q }, hplook, rfl⟩ hcart1 db₁ n₁ hout
        have hcast : ((n₁ + 1 : Nat) : Int) = (n₁ : Int) + 1 := by push_cast; ring
        refine ⟨?_, p'', hp'', ?_⟩
        · rw [hcast]
          nlinarith [hb]
        · rw [hs'', hcast]
          ring
      · -- stock already exhausted for this quantity: the placement fails
        have hfind : findInsufficient (cartJoin db u) =
            some { product_id := pid, quantity := Q, price := p.price, stock := S } := by
          rw [hjoin, findInsufficient]
          exact List.find?_cons_of_pos _ (by simp only [decide_eq_true_eq]; omega)
        have hne2 : cartJoin db u ≠ [] := by rw [hjoin]; simp
        have hplace : place_order db u none = (db, Resp.insufficientStock pid S) := by
          simp [place_order, List.isEmpty_iff, hne2, hfind]
        rcases hout : placeAll rest db with ⟨db₁, n₁⟩
        have hstep : placeAll (u :: rest) db = (db₁, n₁) := by
          simp [placeAll, hplace, hout, Resp.isCreated]
        rw [hstep, Prod.mk.injEq] at h
        obtain ⟨rfl, rfl⟩ := h
        exact ih db S hS hndtail hids ⟨p, hpl, hpS⟩
          (fun u' hu' => hcarts u' (List.mem_cons_of_mem _ hu')) db₁ n₁ hout

/-- C1: for a product with stock S, running K placements (the serial schedule
that SQLite's transaction serialisation imposes on K concurrent invocations),
each from a cart holding only that product with quantity Q, the number n of
successful placements satisfies n*Q ≤ S, hence n ≤ ⌊S/Q⌋; the final stock is
exactly S − n·Q and is non-negative, so no placement whose approval would
drive stock negative ever succeeds. -/
theorem no_oversell_serial (pid : Nat) (Q S : Int) (uids : List Nat) (db : DB)
    (hQ : 0 < Q) (hS : 0 ≤ S) (hnd : uids.Nodup)
    (hids : (db.products.map Product.id).Nodup)
    (p : Product) (hpl : productLookup db.products pid = some p) (hpS : p.stock = S)
    (hcarts : ∀ u ∈ uids, userCart db u =
      [{ user_id := u, product_id := pid, quantity := Q }])
    (db' : DB) (n : Nat) (h : placeAll uids db = (db', n)) :
    (n : Int) * Q ≤ S ∧ (n : Int) ≤ S / Q ∧
      ∃ p', productLookup db'.products pid = some p' ∧
        p'.stock = S - n * Q ∧ 0 ≤ p'.stock := by
  obtain ⟨hbound, p', hp', hstock⟩ :=
    placeAll_no_oversell pid Q uids db S hS hnd hids ⟨p, hpl, hpS⟩ hcarts db' n h
  exact ⟨hbound, (Int.le_ediv_iff_mul_le hQ).mpr hbound, p', hp', hstock,
    by rw [hstock]; linarith⟩

theorem no_oversell_serial_witness :
    ((2 : Nat) : Int) * 2 ≤ 5 ∧ ((2 : Nat) : Int) ≤ 5 / 2 ∧
      ∃ p', productLookup (placeAll [1, 2, 3] dbC).1.products 1 = some p' ∧
        p'.stock = 5 - (2 : Nat) * 2 ∧ 0 ≤ p'.stock :=
  no_oversell_serial 1 2 5 [1, 2, 3] dbC (by decide) (by decide) (by decide)
    (by decide) { id := 1, title := "A", price := 10, stock := 5 }
    (by decide) (by decide) (by decide) (placeAll [1, 2, 3] dbC).1 2 rfl

end BookOrder
